import Mathlib

/-!
Shallow embedding of the Time-Locked Custody Escrow contract
(contracts/time_lock/src/lib.rs) and proofs of its specified properties.

Modelling conventions:
- An account or contract identity (soroban Address) is a natural number.
- u32 token ids and u64 timestamps are natural numbers; the contract only
  compares them, so no modular arithmetic arises.
- Contract storage is a record with one Option field per storage DataKey.
- The external carbon-asset registry's ownership bookkeeping is a function
  from token id to holder; transfer_from mutates it and fails when the
  stated sender does not currently hold the token (the collaborator
  obligation the contract relies on).
- panic_with_error and a failed require_auth abort the whole call: they are
  modelled as Except.error, which produces no post-state, matching the
  ledger's transaction rollback.
- Published contract events are accumulated in an event log inside World.
-/

abbrev Address := Nat

structure LockRecord where
  token_id : Nat
  owner : Address
  unlock_timestamp : Nat
  deposited_at : Nat
deriving DecidableEq, Repr

inductive TimeLockError where
  | AlreadyInitialized
  | NotInitialized
  | AlreadyLocked
  | NotLocked
  | VintageCheckMissing
  | VintageMismatch
deriving DecidableEq, Repr

inductive CallError where
  | contractError (e : TimeLockError)
  | authFailed (a : Address)
  | transferFailed
deriving DecidableEq, Repr

inductive Event where
  | locked (token_id : Nat) (record : LockRecord)
  | released (token_id : Nat) (record : LockRecord)
  | force_rls (token_id : Nat) (record : LockRecord)
deriving DecidableEq, Repr

/-- Persistent storage of the escrow instance: one Option field per DataKey,
none meaning the key is absent. -/
structure Storage where
  admin : Option Address
  carbonAssetContract : Option Address
  validateVintage : Option Bool
  vintageCheckContract : Option (Option Address)
  lockRecords : Option (List (Nat × LockRecord))
deriving DecidableEq, Repr

def Storage.empty : Storage :=
  { admin := none, carbonAssetContract := none, validateVintage := none,
    vintageCheckContract := none, lockRecords := none }

/-- The escrow instance together with the external facts it interacts with:
its own contract address, the registry's ownership map, and the event log. -/
structure World where
  contractAddress : Address
  store : Storage
  owners : Nat → Address
  events : List Event

/-- Per-call environment: the invoker identity, the ledger timestamp, which
identities have provided valid authorization for this call, and the vintage
policy collaborator's reported minimum unlock timestamps. -/
structure CallCtx where
  invoker : Address
  timestamp : Nat
  authorized : Address → Bool
  vintageUnlock : Address → Nat → Nat

/-- Lookup in the lock-record map (soroban Map.get). -/
def recGet : List (Nat × LockRecord) → Nat → Option LockRecord
  | [], _ => none
  | (k, v) :: rest, tid => if k = tid then some v else recGet rest tid

/-- Insert or replace in the lock-record map (soroban Map.set). -/
def recSet : List (Nat × LockRecord) → Nat → LockRecord → List (Nat × LockRecord)
  | [], tid, r => [(tid, r)]
  | (k, v) :: rest, tid, r =>
    if k = tid then (tid, r) :: rest else (k, v) :: recSet rest tid r

/-- Removal from the lock-record map (soroban Map.remove). -/
def recRemove : List (Nat × LockRecord) → Nat → List (Nat × LockRecord)
  | [], _ => []
  | (k, v) :: rest, tid => if k = tid then rest else (k, v) :: recRemove rest tid

/-- Key membership in the lock-record map (soroban Map.contains_key). -/
def containsKey (m : List (Nat × LockRecord)) (tid : Nat) : Bool :=
  (recGet m tid).isSome

/-- Helper get_admin: panics NotInitialized when the Admin key is absent. -/
def get_admin (w : World) : Except CallError Address :=
  match w.store.admin with
  | some a => .ok a
  | none => .error (.contractError .NotInitialized)

/-- Helper get_carbon_asset_contract: panics NotInitialized when absent. -/
def get_carbon_asset_contract (w : World) : Except CallError Address :=
  match w.store.carbonAssetContract with
  | some a => .ok a
  | none => .error (.contractError .NotInitialized)

/-- Helper should_validate_vintage: storage flag, defaulting to false. -/
def should_validate_vintage (w : World) : Bool :=
  (w.store.validateVintage).getD false

/-- Helper get_vintage_check_contract: stored optional address, default none. -/
def get_vintage_check_contract (w : World) : Option Address :=
  (w.store.vintageCheckContract).getD none

/-- Helper read_lock_records: stored map, defaulting to the empty map. -/
def read_lock_records (w : World) : List (Nat × LockRecord) :=
  (w.store.lockRecords).getD []

/-- Helper write_lock_records: store the map under the LockRecords key. -/
def write_lock_records (w : World) (m : List (Nat × LockRecord)) : World :=
  { w with store := { w.store with lockRecords := some m } }

/-- The registry's transfer_from collaborator obligation: moves custody of
the token from src to dst, failing when src does not currently hold it. -/
def transfer_from (w : World) (src dst : Address) (token_id : Nat) :
    Except CallError World :=
  if w.owners token_id = src then
    .ok { w with owners := fun t => if t = token_id then dst else w.owners t }
  else
    .error .transferFailed

/-- The registry's owner_of collaborator obligation. -/
def owner_of (w : World) (token_id : Nat) : Address :=
  w.owners token_id

/-- require_auth: aborts the call unless the identity has authorized it. -/
def require_auth (ctx : CallCtx) (a : Address) : Except CallError Unit :=
  if ctx.authorized a then .ok () else .error (.authFailed a)

/-- env.events().publish. -/
def publish (w : World) (e : Event) : World :=
  { w with events := w.events ++ [e] }

/-- Helper validate_vintage_unlock: consults the vintage policy collaborator
and rejects an unlock timestamp below the reported minimum. -/
def validate_vintage_unlock (ctx : CallCtx) (w : World)
    (token_id unlock_timestamp : Nat) : Except CallError Unit :=
  match get_vintage_check_contract w with
  | none => .error (.contractError .VintageCheckMissing)
  | some check_contract =>
    if unlock_timestamp < ctx.vintageUnlock check_contract token_id then
      .error (.contractError .VintageMismatch)
    else
      .ok ()

/-- TimeLockContract::initialize (named initialize_contract because the bare
word is a Lean keyword). -/
def initialize_contract (ctx : CallCtx) (w : World)
    (admin carbon_asset_contract : Address) (validate_vintage : Bool)
    (vintage_check_contract : Option Address) : Except CallError World :=
  if (w.store.admin).isSome then
    .error (.contractError .AlreadyInitialized)
  else
    match require_auth ctx admin with
    | .error e => .error e
    | .ok _ =>
      .ok { w with store :=
        { admin := some admin
          carbonAssetContract := some carbon_asset_contract
          validateVintage := some validate_vintage
          vintageCheckContract := some vintage_check_contract
          lockRecords := some [] } }

/-- TimeLockContract::lock_credit. -/
def lock_credit (ctx : CallCtx) (w : World) (token_id unlock_timestamp : Nat) :
    Except CallError World :=
  match get_carbon_asset_contract w with
  | .error e => .error e
  | .ok carbon_asset =>
    match (if ctx.invoker ≠ carbon_asset then require_auth ctx ctx.invoker
           else .ok ()) with
    | .error e => .error e
    | .ok _ =>
      match (if should_validate_vintage w then
               validate_vintage_unlock ctx w token_id unlock_timestamp
             else .ok ()) with
      | .error e => .error e
      | .ok _ =>
        let lock_records := read_lock_records w
        if containsKey lock_records token_id then
          .error (.contractError .AlreadyLocked)
        else
          let owner :=
            if ctx.invoker = carbon_asset then owner_of w token_id
            else ctx.invoker
          match transfer_from w owner w.contractAddress token_id with
          | .error e => .error e
          | .ok w1 =>
            let record : LockRecord :=
              { token_id := token_id, owner := owner,
                unlock_timestamp := unlock_timestamp,
                deposited_at := ctx.timestamp }
            let w2 := write_lock_records w1 (recSet lock_records token_id record)
            .ok (publish w2 (Event.locked token_id record))

/-- TimeLockContract::release_if_eligible. -/
def release_if_eligible (ctx : CallCtx) (w : World) (token_id : Nat) :
    Except CallError World :=
  let lock_records := read_lock_records w
  match recGet lock_records token_id with
  | none => .ok w
  | some record =>
    if ctx.timestamp < record.unlock_timestamp then
      .ok w
    else
      match get_carbon_asset_contract w with
      | .error e => .error e
      | .ok _carbon_asset =>
        match transfer_from w w.contractAddress record.owner token_id with
        | .error e => .error e
        | .ok w1 =>
          let w2 := write_lock_records w1 (recRemove lock_records token_id)
          .ok (publish w2 (Event.released token_id record))

/-- TimeLockContract::batch_release: the source loop, where a panic in any
iteration aborts the whole call. -/
def batch_release (ctx : CallCtx) (w : World) :
    List Nat → Except CallError World
  | [] => .ok w
  | token_id :: rest =>
    match release_if_eligible ctx w token_id with
    | .error e => .error e
    | .ok w1 => batch_release ctx w1 rest

/-- TimeLockContract::force_release. -/
def force_release (ctx : CallCtx) (w : World) (token_id : Nat) :
    Except CallError World :=
  match get_admin w with
  | .error e => .error e
  | .ok admin =>
    match require_auth ctx admin with
    | .error e => .error e
    | .ok _ =>
      let lock_records := read_lock_records w
      match recGet lock_records token_id with
      | none => .error (.contractError .NotLocked)
      | some record =>
        match get_carbon_asset_contract w with
        | .error e => .error e
        | .ok _carbon_asset =>
          match transfer_from w w.contractAddress record.owner token_id with
          | .error e => .error e
          | .ok w1 =>
            let w2 := write_lock_records w1 (recRemove lock_records token_id)
            .ok (publish w2 (Event.force_rls token_id record))

/-- TimeLockContract::get_lock_status. -/
def get_lock_status (w : World) (token_id : Nat) : Option LockRecord :=
  recGet (read_lock_records w) token_id

/-- Iteration of get_tokens_locked_until over the map entries. -/
def tokens_locked_aux : List (Nat × LockRecord) → Nat → List Nat
  | [], _ => []
  | (token_id, record) :: rest, ts =>
    if record.unlock_timestamp > ts then token_id :: tokens_locked_aux rest ts
    else tokens_locked_aux rest ts

/-- TimeLockContract::get_tokens_locked_until. -/
def get_tokens_locked_until (w : World) (ts : Nat) : List Nat :=
  tokens_locked_aux (read_lock_records w) ts

/-- The map-uniqueness invariant of the lock registry: no token id occurs
twice among the stored records. -/
def NodupKeys (w : World) : Prop :=
  ((read_lock_records w).map Prod.fst).Nodup

instance (w : World) : Decidable (NodupKeys w) := by
  unfold NodupKeys; infer_instance

/-- One public state-changing call of the contract, as a transition between
worlds (error outcomes produce no transition, matching rollback). -/
inductive Step : World → World → Prop where
  | init_s : ∀ ctx w w' a c v vc,
      initialize_contract ctx w a c v vc = .ok w' → Step w w'
  | lock_s : ∀ ctx w w' tid ts, lock_credit ctx w tid ts = .ok w' → Step w w'
  | release_s : ∀ ctx w w' tid,
      release_if_eligible ctx w tid = .ok w' → Step w w'
  | batch_s : ∀ ctx w w' tids, batch_release ctx w tids = .ok w' → Step w w'
  | force_s : ∀ ctx w w' tid, force_release ctx w tid = .ok w' → Step w w'

/-- Modelled from the spec: batch_release applies release_if_eligible to each
identifier in the given sequence, in order (sequential composition in the
error monad); stated separately from the source loop for the refinement
comparison of the two. -/
def batch_release_spec (ctx : CallCtx) (token_ids : List Nat) (w : World) :
    Except CallError World :=
  token_ids.foldlM (fun s tid => release_if_eligible ctx s tid) w

/-- One public call of the contract together with its arguments. -/
inductive Call where
  | init_c (admin carbon_asset : Address) (validate_vintage : Bool)
      (vintage_check : Option Address)
  | lock_c (token_id unlock_timestamp : Nat)
  | release_c (token_id : Nat)
  | batch_c (token_ids : List Nat)
  | force_c (token_id : Nat)

/-- Dispatch of a public call to the corresponding operation. -/
def exec (ctx : CallCtx) (w : World) : Call → Except CallError World
  | .init_c a c v vc => initialize_contract ctx w a c v vc
  | .lock_c tid ts => lock_credit ctx w tid ts
  | .release_c tid => release_if_eligible ctx w tid
  | .batch_c tids => batch_release ctx w tids
  | .force_c tid => force_release ctx w tid

/-- The ledger-observable outcome of one call: the post-state (the pre-state
when the transaction aborted and rolled back) and the error, if any. -/
def runCall (ctx : CallCtx) (w : World) (c : Call) : World × Option CallError :=
  match exec ctx w c with
  | .ok w1 => (w1, none)
  | .error e => (w, some e)

/-- Fixture: every token held by account 3. -/
def ownersAll3 : Nat → Address := fun _ => 3

/-- Fixture: token 7 held by the escrow at address 9, all others by 3. -/
def ownersEscrow7 : Nat → Address := fun t => if t = 7 then 9 else 3

/-- Fixture record for token 7: owner 3, unlock time 50, deposited at 10. -/
def recTok7 : LockRecord := ⟨7, 3, 50, 10⟩

/-- Fixture call context: invoker 3 at time 0, everyone authorized, vintage
policy reporting minimum unlock 100 for every token. -/
def ctxPermissive : CallCtx := ⟨3, 0, fun _ => true, fun _ _ => 100⟩

/-- Fixture call context: invoker 4 at time 60, everyone authorized. -/
def ctxLate : CallCtx := ⟨4, 60, fun _ => true, fun _ _ => 0⟩

/-- Fixture call context: invoker 3 at time 10, everyone authorized. -/
def ctxAt10 : CallCtx := ⟨3, 10, fun _ => true, fun _ _ => 0⟩

/-- Fixture call context: invoker 5 at time 0, nobody authorized. -/
def ctxNoAuth : CallCtx := ⟨5, 0, fun _ => false, fun _ _ => 0⟩

/-- Fixture: uninitialized escrow instance at address 9. -/
def worldEmpty : World := ⟨9, Storage.empty, ownersAll3, []⟩

/-- Fixture: initialized instance (admin 0, registry 1, no vintage checks),
no locks. -/
def worldInit : World :=
  ⟨9, ⟨some 0, some 1, some false, some none, some []⟩, ownersAll3, []⟩

/-- Fixture: initialized instance with vintage validation on (policy at 2)
and token 7 locked. -/
def worldVintageLocked : World :=
  ⟨9, ⟨some 0, some 1, some true, some (some 2), some [(7, recTok7)]⟩,
   ownersAll3, []⟩

/-- Fixture: initialized instance, no vintage checks, token 7 locked and held
by the escrow. -/
def worldLockedEscrow : World :=
  ⟨9, ⟨some 0, some 1, some false, some none, some [(7, recTok7)]⟩,
   ownersEscrow7, []⟩

/-- Fixture: the state after locking token 7 (unlock 50) from worldInit at
time 10. -/
def worldAfterLock : World :=
  ⟨9, ⟨some 0, some 1, some false, some none, some [(7, recTok7)]⟩,
   ownersEscrow7, [Event.locked 7 recTok7]⟩

/-- Fixture: initialized instance with vintage validation on (policy at 2),
no locks. -/
def worldVintageInit : World :=
  ⟨9, ⟨some 0, some 1, some true, some (some 2), some []⟩, ownersAll3, []⟩

/-- Fixture: instance with the vintage flag set but no policy address
configured. -/
def worldVintageMissing : World :=
  ⟨9, ⟨some 0, some 1, some true, some none, some []⟩, ownersAll3, []⟩

theorem recGet_eq_none_iff (m : List (Nat × LockRecord)) (tid : Nat) :
    recGet m tid = none ↔ tid ∉ m.map Prod.fst := by
  induction m with
  | nil => simp [recGet]
  | cons kv rest ih =>
    obtain ⟨k, v⟩ := kv
    by_cases h : k = tid
    · subst h; simp [recGet]
    · simp [recGet, h, ih, Ne.symm h]

theorem mem_of_recGet_eq_some {m : List (Nat × LockRecord)} {tid : Nat}
    {r : LockRecord} (h : recGet m tid = some r) : (tid, r) ∈ m := by
  induction m with
  | nil => simp [recGet] at h
  | cons kv rest ih =>
    obtain ⟨k, v⟩ := kv
    by_cases hk : k = tid
    · subst hk
      simp [recGet] at h
      subst h
      exact List.mem_cons_self _ _
    · simp [recGet, hk] at h
      exact List.mem_cons_of_mem _ (ih h)

theorem recGet_eq_some_of_mem {m : List (Nat × LockRecord)} {tid : Nat}
    {r : LockRecord} (hnd : (m.map Prod.fst).Nodup) (h : (tid, r) ∈ m) :
    recGet m tid = some r := by
  induction m with
  | nil => simp at h
  | cons kv rest ih =>
    obtain ⟨k, v⟩ := kv
    simp only [List.map_cons, List.nodup_cons] at hnd
    rcases List.mem_cons.mp h with h1 | h1
    · obtain ⟨rfl, rfl⟩ := Prod.mk.injEq .. ▸ h1
      simp [recGet]
    · have hk : k ≠ tid := by
        intro hkt
        subst hkt
        exact hnd.1 (List.mem_map.mpr ⟨(k, r), h1, rfl⟩)
      simp [recGet, hk, ih hnd.2 h1]

theorem recSet_of_recGet_none {m : List (Nat × LockRecord)} {tid : Nat}
    (r : LockRecord) (h : recGet m tid = none) :
    recSet m tid r = m ++ [(tid, r)] := by
  induction m with
  | nil => simp [recSet]
  | cons kv rest ih =>
    obtain ⟨k, v⟩ := kv
    by_cases hk : k = tid
    · subst hk; simp [recGet] at h
    · simp [recGet, hk] at h
      simp [recSet, hk, ih h]

theorem recGet_append_of_none {m l : List (Nat × LockRecord)} {tid : Nat}
    (h : recGet m tid = none) : recGet (m ++ l) tid = recGet l tid := by
  induction m with
  | nil => simp
  | cons kv rest ih =>
    obtain ⟨k, v⟩ := kv
    by_cases hk : k = tid
    · subst hk; simp [recGet] at h
    · simp [recGet, hk] at h ⊢
      exact ih h

theorem recRemove_append_of_none {m : List (Nat × LockRecord)} {tid : Nat}
    (r : LockRecord) (h : recGet m tid = none) :
    recRemove (m ++ [(tid, r)]) tid = m := by
  induction m with
  | nil => simp [recRemove]
  | cons kv rest ih =>
    obtain ⟨k, v⟩ := kv
    by_cases hk : k = tid
    · subst hk; simp [recGet] at h
    · simp [recGet, hk] at h
      simp [recRemove, hk, ih h]

theorem keys_recRemove_sublist (m : List (Nat × LockRecord)) (tid : Nat) :
    ((recRemove m tid).map Prod.fst).Sublist (m.map Prod.fst) := by
  induction m with
  | nil => simp [recRemove]
  | cons kv rest ih =>
    obtain ⟨k, v⟩ := kv
    by_cases hk : k = tid
    · subst hk
      simp only [recRemove, if_pos rfl, List.map_cons]
      exact List.sublist_cons_self _ _
    · simp only [recRemove, if_neg hk, List.map_cons]
      exact ih.cons₂ k

theorem nodup_keys_recRemove {m : List (Nat × LockRecord)} {tid : Nat}
    (h : (m.map Prod.fst).Nodup) :
    (((recRemove m tid).map Prod.fst)).Nodup :=
  (keys_recRemove_sublist m tid).nodup h

theorem recGet_recRemove_self {m : List (Nat × LockRecord)} {tid : Nat}
    (hnd : (m.map Prod.fst).Nodup) : recGet (recRemove m tid) tid = none := by
  induction m with
  | nil => simp [recRemove, recGet]
  | cons kv rest ih =>
    obtain ⟨k, v⟩ := kv
    simp only [List.map_cons, List.nodup_cons] at hnd
    by_cases hk : k = tid
    · subst hk
      simp only [recRemove, if_pos rfl]
      rw [recGet_eq_none_iff]
      exact hnd.1
    · simp [recRemove, recGet, hk, ih hnd.2]

theorem keys_recSet (m : List (Nat × LockRecord)) (tid : Nat) (r : LockRecord) :
    (recSet m tid r).map Prod.fst =
      if tid ∈ m.map Prod.fst then m.map Prod.fst
      else m.map Prod.fst ++ [tid] := by
  induction m with
  | nil => simp [recSet]
  | cons kv rest ih =>
    obtain ⟨k, v⟩ := kv
    by_cases hk : k = tid
    · subst hk
      simp [recSet]
    · simp only [recSet, if_neg hk, List.map_cons, ih, List.mem_cons]
      have htk : ¬ tid = k := fun h => hk h.symm
      by_cases hmem : tid ∈ rest.map Prod.fst
      · simp [hmem, htk]
      · simp [hmem, htk]

theorem nodup_keys_recSet {m : List (Nat × LockRecord)} {tid : Nat}
    (r : LockRecord) (hnd : (m.map Prod.fst).Nodup) :
    ((recSet m tid r).map Prod.fst).Nodup := by
  rw [keys_recSet]
  by_cases hmem : tid ∈ m.map Prod.fst
  · simpa [hmem] using hnd
  · simp only [if_neg hmem]
    simpa [List.nodup_append, hmem] using hnd

theorem transfer_from_ok {w w' : World} {src dst : Address} {tid : Nat}
    (h : transfer_from w src dst tid = .ok w') :
    w.owners tid = src ∧
    w' = { w with owners := fun t => if t = tid then dst else w.owners t } := by
  unfold transfer_from at h
  split at h
  · exact ⟨by assumption, by injection h with h2; exact h2.symm⟩
  · cases h

theorem get_carbon_asset_contract_ok {w : World} {ca : Address}
    (h : get_carbon_asset_contract w = .ok ca) :
    w.store.carbonAssetContract = some ca := by
  cases hx : w.store.carbonAssetContract with
  | none => simp [get_carbon_asset_contract, hx] at h
  | some a => simp [get_carbon_asset_contract, hx] at h; rw [h]

theorem get_admin_ok {w : World} {a : Address} (h : get_admin w = .ok a) :
    w.store.admin = some a := by
  cases hx : w.store.admin with
  | none => simp [get_admin, hx] at h
  | some b => simp [get_admin, hx] at h; rw [h]

theorem lock_credit_ok_inv {ctx : CallCtx} {w w' : World} {tid ts : Nat}
    (h : lock_credit ctx w tid ts = .ok w') :
    (w.store.carbonAssetContract).isSome = true ∧
    recGet (read_lock_records w) tid = none ∧
    w'.contractAddress = w.contractAddress ∧
    w'.store.admin = w.store.admin ∧
    w'.store.carbonAssetContract = w.store.carbonAssetContract ∧
    w'.store.validateVintage = w.store.validateVintage ∧
    w'.store.vintageCheckContract = w.store.vintageCheckContract ∧
    w'.store.lockRecords =
      some (recSet (read_lock_records w) tid ⟨tid, w.owners tid, ts, ctx.timestamp⟩) ∧
    w'.owners tid = w.contractAddress ∧
    (∀ t, t ≠ tid → w'.owners t = w.owners t) ∧
    w'.events = w.events ++ [Event.locked tid ⟨tid, w.owners tid, ts, ctx.timestamp⟩] := by
  simp only [lock_credit] at h
  split at h
  · cases h
  rename_i carbon_asset hca
  split at h
  · cases h
  split at h
  · cases h
  split at h
  · cases h
  rename_i hc
  split at h
  · cases h
  rename_i w1 htr
  obtain ⟨hown, rfl⟩ := transfer_from_ok htr
  have hnone : recGet (read_lock_records w) tid = none := by
    simpa [containsKey, Option.not_isSome_iff_eq_none] using hc
  injection h with h2
  subst h2
  rw [← hown]
  refine ⟨by simp [get_carbon_asset_contract_ok hca], hnone, ?_, ?_, ?_, ?_, ?_, ?_, ?_, ?_, ?_⟩
  · rfl
  · rfl
  · rfl
  · rfl
  · rfl
  · rfl
  · simp [publish, write_lock_records]
  · intro t ht
    simp [publish, write_lock_records, ht]
  · rfl

theorem release_if_eligible_of_none {ctx : CallCtx} {w : World} {tid : Nat}
    (hr : recGet (read_lock_records w) tid = none) :
    release_if_eligible ctx w tid = .ok w := by
  simp only [release_if_eligible, hr]

theorem release_if_eligible_of_early {ctx : CallCtx} {w : World} {tid : Nat}
    {r : LockRecord} (hr : recGet (read_lock_records w) tid = some r)
    (ht : ctx.timestamp < r.unlock_timestamp) :
    release_if_eligible ctx w tid = .ok w := by
  simp only [release_if_eligible, hr]
  rw [if_pos ht]

theorem release_if_eligible_eq_ok {ctx : CallCtx} {w : World} {tid : Nat}
    {r : LockRecord} {ca : Address}
    (hr : recGet (read_lock_records w) tid = some r)
    (ht : r.unlock_timestamp ≤ ctx.timestamp)
    (hca : w.store.carbonAssetContract = some ca)
    (hown : w.owners tid = w.contractAddress) :
    release_if_eligible ctx w tid =
      .ok (publish (write_lock_records
        { w with owners := fun t => if t = tid then r.owner else w.owners t }
        (recRemove (read_lock_records w) tid)) (Event.released tid r)) := by
  simp only [release_if_eligible, hr]
  rw [if_neg (Nat.not_lt.mpr ht)]
  simp only [get_carbon_asset_contract, hca]
  simp [transfer_from, hown]

theorem force_release_eq_ok {ctx : CallCtx} {w : World} {tid : Nat}
    {r : LockRecord} {a ca : Address}
    (ha : w.store.admin = some a)
    (hauth : ctx.authorized a = true)
    (hr : recGet (read_lock_records w) tid = some r)
    (hca : w.store.carbonAssetContract = some ca)
    (hown : w.owners tid = w.contractAddress) :
    force_release ctx w tid =
      .ok (publish (write_lock_records
        { w with owners := fun t => if t = tid then r.owner else w.owners t }
        (recRemove (read_lock_records w) tid)) (Event.force_rls tid r)) := by
  simp only [force_release, get_admin, ha, require_auth, hauth, if_pos, hr]
  simp only [get_carbon_asset_contract, hca]
  simp [transfer_from, hown]

theorem initialize_contract_ok_inv {ctx : CallCtx} {w w' : World}
    {a c : Address} {v : Bool} {vc : Option Address}
    (h : initialize_contract ctx w a c v vc = .ok w') :
    w.store.admin = none ∧
    w'.store = ⟨some a, some c, some v, some vc, some []⟩ ∧
    w'.contractAddress = w.contractAddress ∧
    w'.owners = w.owners ∧ w'.events = w.events := by
  simp only [initialize_contract] at h
  split at h
  · cases h
  rename_i hadm
  split at h
  · cases h
  injection h with h2
  subst h2
  exact ⟨Option.not_isSome_iff_eq_none.mp hadm, rfl, rfl, rfl, rfl⟩

theorem release_ok_records {ctx : CallCtx} {w w' : World} {tid : Nat}
    (h : release_if_eligible ctx w tid = .ok w') :
    w'.store.lockRecords = w.store.lockRecords ∨
    w'.store.lockRecords = some (recRemove (read_lock_records w) tid) := by
  simp only [release_if_eligible] at h
  split at h
  · injection h with h2; subst h2; exact Or.inl rfl
  split at h
  · injection h with h2; subst h2; exact Or.inl rfl
  split at h
  · cases h
  split at h
  · cases h
  rename_i w1 htr
  obtain ⟨-, rfl⟩ := transfer_from_ok htr
  injection h with h2
  subst h2
  exact Or.inr rfl

theorem force_ok_records {ctx : CallCtx} {w w' : World} {tid : Nat}
    (h : force_release ctx w tid = .ok w') :
    w'.store.lockRecords = some (recRemove (read_lock_records w) tid) := by
  simp only [force_release] at h
  split at h
  · cases h
  split at h
  · cases h
  split at h
  · cases h
  split at h
  · cases h
  split at h
  · cases h
  rename_i w1 htr
  obtain ⟨-, rfl⟩ := transfer_from_ok htr
  injection h with h2
  subst h2
  rfl

theorem recGet_recSet_self (m : List (Nat × LockRecord)) (tid : Nat)
    (r : LockRecord) : recGet (recSet m tid r) tid = some r := by
  induction m with
  | nil => simp [recSet, recGet]
  | cons kv rest ih =>
    obtain ⟨k, v⟩ := kv
    by_cases hk : k = tid
    · subst hk; simp [recSet, recGet]
    · simp [recSet, recGet, hk, ih]

theorem mem_tokens_locked_aux {m : List (Nat × LockRecord)} {ts tok : Nat} :
    tok ∈ tokens_locked_aux m ts ↔
      ∃ r : LockRecord, (tok, r) ∈ m ∧ ts < r.unlock_timestamp := by
  induction m with
  | nil => simp [tokens_locked_aux]
  | cons kv rest ih =>
    obtain ⟨k, v⟩ := kv
    by_cases hgt : ts < v.unlock_timestamp
    · simp only [tokens_locked_aux, if_pos hgt, List.mem_cons, ih, Prod.mk.injEq]
      constructor
      · rintro (rfl | ⟨r, hr, hts⟩)
        · exact ⟨v, Or.inl ⟨rfl, rfl⟩, hgt⟩
        · exact ⟨r, Or.inr hr, hts⟩
      · rintro ⟨r, ⟨rfl, rfl⟩ | hr, hts⟩
        · exact Or.inl rfl
        · exact Or.inr ⟨r, hr, hts⟩
    · simp only [tokens_locked_aux, if_neg hgt, ih, List.mem_cons, Prod.mk.injEq]
      constructor
      · rintro ⟨r, hr, hts⟩
        exact ⟨r, Or.inr hr, hts⟩
      · rintro ⟨r, ⟨rfl, rfl⟩ | hr, hts⟩
        · exact absurd hts hgt
        · exact ⟨r, hr, hts⟩

theorem NodupKeys_release {ctx : CallCtx} {w w' : World} {tid : Nat}
    (h : release_if_eligible ctx w tid = .ok w') (hnd : NodupKeys w) :
    NodupKeys w' := by
  rcases release_ok_records h with h1 | h1 <;>
    unfold NodupKeys read_lock_records at hnd ⊢ <;> rw [h1]
  · exact hnd
  · exact nodup_keys_recRemove hnd

theorem NodupKeys_batch {ctx : CallCtx} :
    ∀ (tids : List Nat) (w w' : World),
      batch_release ctx w tids = .ok w' → NodupKeys w → NodupKeys w'
  | [], w, w', h, hnd => by
    simp only [batch_release] at h
    injection h with h2
    subst h2
    exact hnd
  | tid :: rest, w, w', h, hnd => by
    simp only [batch_release] at h
    split at h
    · cases h
    rename_i w1 h1
    exact NodupKeys_batch rest w1 w' h (NodupKeys_release h1 hnd)

theorem NodupKeys_step {w w' : World} (hs : Step w w') (hnd : NodupKeys w) :
    NodupKeys w' := by
  cases hs with
  | init_s ctx w w' a c v vc h =>
    obtain ⟨-, hst, -, -, -⟩ := initialize_contract_ok_inv h
    unfold NodupKeys read_lock_records
    rw [hst]
    simp
  | lock_s ctx w w' tid ts h =>
    obtain ⟨-, -, -, -, -, -, -, hrec, -, -, -⟩ := lock_credit_ok_inv h
    unfold NodupKeys read_lock_records at hnd ⊢
    rw [hrec]
    exact nodup_keys_recSet _ hnd
  | release_s ctx w w' tid h => exact NodupKeys_release h hnd
  | batch_s ctx w w' tids h => exact NodupKeys_batch tids w w' h hnd
  | force_s ctx w w' tid h =>
    have h1 := force_ok_records h
    unfold NodupKeys read_lock_records at hnd ⊢
    rw [h1]
    exact nodup_keys_recRemove hnd

theorem lock_auth_ok {ctx : CallCtx} {ca : Address}
    (hauth : ctx.authorized ctx.invoker = true) :
    (if ctx.invoker ≠ ca then require_auth ctx ctx.invoker else .ok ()) =
      (.ok () : Except CallError Unit) := by
  by_cases hinv : ctx.invoker = ca
  · simp [hinv]
  · simp [hinv, require_auth, hauth]

/-- Claim C1, counterexample: the claim that lock_credit on an already-locked
token always fails with AlreadyLocked is falsified because the vintage guard
runs before the existence check: on a locked token with vintage validation
enabled and a requested unlock below the policy minimum, the call fails with
VintageMismatch instead. -/
theorem C1_counterexample :
    containsKey (read_lock_records worldVintageLocked) 7 = true ∧
    lock_credit ctxPermissive worldVintageLocked 7 5 =
      .error (.contractError .VintageMismatch) ∧
    lock_credit ctxPermissive worldVintageLocked 7 5 ≠
      .error (.contractError .AlreadyLocked) := by
  refine ⟨rfl, rfl, ?_⟩
  have h1 : lock_credit ctxPermissive worldVintageLocked 7 5 =
      .error (.contractError .VintageMismatch) := rfl
  rw [h1]
  simp

/-- Claim C1, amended: the at-most-one-record-per-token invariant holds in
every uninitialized state and is preserved by every contract operation; a
lock_credit call on an already-locked token never succeeds (every outcome is
an error, which aborts the call with no state change); and it fails with
AlreadyLocked whenever the earlier authorization and vintage guards pass. -/
theorem C1_lock_uniqueness :
    (∀ w : World, w.store = Storage.empty → NodupKeys w) ∧
    (∀ w w' : World, NodupKeys w → Step w w' → NodupKeys w') ∧
    (∀ (ctx : CallCtx) (w : World) (tid ts : Nat) (w' : World),
      containsKey (read_lock_records w) tid = true →
      lock_credit ctx w tid ts ≠ .ok w') ∧
    (∀ (ctx : CallCtx) (w : World) (tid ts : Nat) (ca : Address),
      w.store.carbonAssetContract = some ca →
      ctx.authorized ctx.invoker = true →
      (should_validate_vintage w = false ∨
        (∃ p, get_vintage_check_contract w = some p ∧
          ctx.vintageUnlock p tid ≤ ts)) →
      containsKey (read_lock_records w) tid = true →
      lock_credit ctx w tid ts = .error (.contractError .AlreadyLocked)) := by
  refine ⟨?_, ?_, ?_, ?_⟩
  · intro w h
    unfold NodupKeys read_lock_records
    rw [h]
    simp [Storage.empty]
  · intro w w' hnd hs
    exact NodupKeys_step hs hnd
  · intro ctx w tid ts w' hc h
    obtain ⟨-, hnone, -⟩ := lock_credit_ok_inv h
    simp [containsKey, hnone] at hc
  · intro ctx w tid ts ca hca hauth hv hc
    simp only [lock_credit, get_carbon_asset_contract, hca]
    rw [lock_auth_ok hauth]
    have hvv : (if should_validate_vintage w then
        validate_vintage_unlock ctx w tid ts else .ok ()) =
        (.ok () : Except CallError Unit) := by
      rcases hv with hv | ⟨p, hp, hle⟩
      · simp [hv]
      · by_cases hsv : should_validate_vintage w
        · simp [hsv, validate_vintage_unlock, hp, Nat.not_lt.mpr hle]
        · simp [hsv]
    rw [hvv]
    simp [hc]

/-- Witness for C1: a concrete already-locked token (no vintage validation,
authorized caller) on which lock_credit fails with AlreadyLocked. -/
theorem C1_lock_uniqueness_witness :
    worldLockedEscrow.store.carbonAssetContract = some 1 ∧
    ctxPermissive.authorized ctxPermissive.invoker = true ∧
    should_validate_vintage worldLockedEscrow = false ∧
    containsKey (read_lock_records worldLockedEscrow) 7 = true ∧
    lock_credit ctxPermissive worldLockedEscrow 7 5 =
      .error (.contractError .AlreadyLocked) :=
  ⟨rfl, rfl, rfl, rfl,
   C1_lock_uniqueness.2.2.2 ctxPermissive worldLockedEscrow 7 5 1 rfl rfl
     (Or.inl rfl) rfl⟩

/-- Claim C2: release_if_eligible is a silent no-op (same state, no error)
when no record exists for the token or when the clock is strictly before the
unlock timestamp; otherwise, on an initialized instance whose escrow holds
the token, it transfers custody back to the recorded owner, removes the
record, and publishes the release event. -/
theorem C2_release_cases :
    (∀ (ctx : CallCtx) (w : World) (tid : Nat),
      recGet (read_lock_records w) tid = none →
      release_if_eligible ctx w tid = .ok w) ∧
    (∀ (ctx : CallCtx) (w : World) (tid : Nat) (r : LockRecord),
      recGet (read_lock_records w) tid = some r →
      ctx.timestamp < r.unlock_timestamp →
      release_if_eligible ctx w tid = .ok w) ∧
    (∀ (ctx : CallCtx) (w : World) (tid : Nat) (r : LockRecord) (ca : Address),
      recGet (read_lock_records w) tid = some r →
      r.unlock_timestamp ≤ ctx.timestamp →
      w.store.carbonAssetContract = some ca →
      w.owners tid = w.contractAddress →
      ∃ w', release_if_eligible ctx w tid = .ok w' ∧
        w'.owners tid = r.owner ∧
        (∀ t, t ≠ tid → w'.owners t = w.owners t) ∧
        w'.store.lockRecords = some (recRemove (read_lock_records w) tid) ∧
        w'.events = w.events ++ [Event.released tid r]) := by
  refine ⟨fun ctx w tid h => release_if_eligible_of_none h,
    fun ctx w tid r hr ht => release_if_eligible_of_early hr ht,
    fun ctx w tid r ca hr ht hca hown => ?_⟩
  refine ⟨_, release_if_eligible_eq_ok hr ht hca hown, ?_, ?_, ?_, ?_⟩
  · simp [publish, write_lock_records]
  · intro t htd
    simp [publish, write_lock_records, htd]
  · rfl
  · rfl

/-- Witness for C2: the eligible branch on a concrete locked token held by
the escrow, released at time 60 with unlock time 50. -/
theorem C2_release_cases_witness :
    recGet (read_lock_records worldLockedEscrow) 7 = some recTok7 ∧
    recTok7.unlock_timestamp ≤ ctxLate.timestamp ∧
    worldLockedEscrow.store.carbonAssetContract = some 1 ∧
    worldLockedEscrow.owners 7 = worldLockedEscrow.contractAddress ∧
    (∃ w', release_if_eligible ctxLate worldLockedEscrow 7 = .ok w' ∧
      w'.owners 7 = recTok7.owner ∧
      (∀ t, t ≠ 7 → w'.owners t = worldLockedEscrow.owners t) ∧
      w'.store.lockRecords =
        some (recRemove (read_lock_records worldLockedEscrow) 7) ∧
      w'.events = worldLockedEscrow.events ++ [Event.released 7 recTok7]) :=
  ⟨rfl, by decide, rfl, rfl,
   C2_release_cases.2.2 ctxLate worldLockedEscrow 7 recTok7 1 rfl (by decide)
     rfl rfl⟩

/-- Claim C3: a successful lock_credit of a token until time t, followed at
any clock at or past t by release_if_eligible, restores the pre-lock owner
as custodian and removes the record, so get_lock_status reports absence. -/
theorem C3_lock_release_roundtrip :
    ∀ (ctx1 ctx2 : CallCtx) (w w1 : World) (tok t : Nat),
      lock_credit ctx1 w tok t = .ok w1 →
      t ≤ ctx2.timestamp →
      ∃ w2, release_if_eligible ctx2 w1 tok = .ok w2 ∧
        w2.owners tok = w.owners tok ∧
        get_lock_status w2 tok = none := by
  intro ctx1 ctx2 w w1 tok t hlock ht
  obtain ⟨hcaS, hnone, hcaddr, hadm, hcac, hvvf, hvcc, hrec, hown7, hownO, hev⟩ :=
    lock_credit_ok_inv hlock
  obtain ⟨ca, hca⟩ := Option.isSome_iff_exists.mp hcaS
  have hread1 : read_lock_records w1 =
      recSet (read_lock_records w) tok ⟨tok, w.owners tok, t, ctx1.timestamp⟩ := by
    unfold read_lock_records
    rw [hrec]
    rfl
  have hr1 : recGet (read_lock_records w1) tok =
      some ⟨tok, w.owners tok, t, ctx1.timestamp⟩ := by
    rw [hread1]
    exact recGet_recSet_self _ _ _
  have hca1 : w1.store.carbonAssetContract = some ca := by rw [hcac, hca]
  have hown1 : w1.owners tok = w1.contractAddress := by rw [hown7, hcaddr]
  have hrem : recRemove (read_lock_records w1) tok = read_lock_records w := by
    rw [hread1, recSet_of_recGet_none _ hnone, recRemove_append_of_none _ hnone]
  refine ⟨_, release_if_eligible_eq_ok hr1 ht hca1 hown1, ?_, ?_⟩
  · simp [publish, write_lock_records]
  · unfold get_lock_status
    have hread2 : read_lock_records (publish (write_lock_records
        { w1 with owners := fun t' => if t' = tok then
            (⟨tok, w.owners tok, t, ctx1.timestamp⟩ : LockRecord).owner
          else w1.owners t' }
        (recRemove (read_lock_records w1) tok))
        (Event.released tok ⟨tok, w.owners tok, t, ctx1.timestamp⟩)) =
        recRemove (read_lock_records w1) tok := rfl
    rw [hread2, hrem]
    exact hnone

/-- Witness for C3: locking token 7 until time 50 from a concrete initialized
state and releasing it at time 60. -/
theorem C3_lock_release_roundtrip_witness :
    lock_credit ctxAt10 worldInit 7 50 = .ok worldAfterLock ∧
    (50 : Nat) ≤ ctxLate.timestamp ∧
    (∃ w2, release_if_eligible ctxLate worldAfterLock 7 = .ok w2 ∧
      w2.owners 7 = worldInit.owners 7 ∧
      get_lock_status w2 7 = none) :=
  ⟨rfl, by decide,
   C3_lock_release_roundtrip ctxAt10 ctxLate worldInit worldAfterLock 7 50 rfl
     (by decide)⟩

/-- Claim C4: force_release demands authorization from the stored admin
identity specifically; with an authorized admin it fails NotLocked exactly
when no record exists, and succeeds whenever a record exists with no
condition on the clock, transferring custody back to the recorded owner and
removing the record like a normal release (with the force event). -/
theorem C4_force_release_behavior :
    (∀ (ctx : CallCtx) (w : World) (tid : Nat) (a : Address),
      w.store.admin = some a → ctx.authorized a = false →
      force_release ctx w tid = .error (.authFailed a)) ∧
    (∀ (ctx : CallCtx) (w : World) (tid : Nat) (a : Address),
      w.store.admin = some a → ctx.authorized a = true →
      recGet (read_lock_records w) tid = none →
      force_release ctx w tid = .error (.contractError .NotLocked)) ∧
    (∀ (ctx : CallCtx) (w : World) (tid : Nat) (a ca : Address) (r : LockRecord),
      w.store.admin = some a → ctx.authorized a = true →
      w.store.carbonAssetContract = some ca →
      recGet (read_lock_records w) tid = some r →
      w.owners tid = w.contractAddress →
      ∃ w', force_release ctx w tid = .ok w' ∧
        w'.owners tid = r.owner ∧
        (∀ t, t ≠ tid → w'.owners t = w.owners t) ∧
        w'.store.lockRecords = some (recRemove (read_lock_records w) tid) ∧
        w'.events = w.events ++ [Event.force_rls tid r]) := by
  refine ⟨?_, ?_, ?_⟩
  · intro ctx w tid a ha hauth
    simp [force_release, get_admin, ha, require_auth, hauth]
  · intro ctx w tid a ha hauth hr
    simp [force_release, get_admin, ha, require_auth, hauth, hr]
  · intro ctx w tid a ca r ha hauth hca hr hown
    refine ⟨_, force_release_eq_ok ha hauth hr hca hown, ?_, ?_, ?_, ?_⟩
    · simp [publish, write_lock_records]
    · intro t htd
      simp [publish, write_lock_records, htd]
    · rfl
    · rfl

/-- Witness for C4: the admin force-releases a concrete locked token at
clock 0, strictly before its unlock time 50. -/
theorem C4_force_release_behavior_witness :
    worldLockedEscrow.store.admin = some 0 ∧
    ctxPermissive.authorized 0 = true ∧
    worldLockedEscrow.store.carbonAssetContract = some 1 ∧
    recGet (read_lock_records worldLockedEscrow) 7 = some recTok7 ∧
    worldLockedEscrow.owners 7 = worldLockedEscrow.contractAddress ∧
    ctxPermissive.timestamp < recTok7.unlock_timestamp ∧
    (∃ w', force_release ctxPermissive worldLockedEscrow 7 = .ok w' ∧
      w'.owners 7 = recTok7.owner ∧
      (∀ t, t ≠ 7 → w'.owners t = worldLockedEscrow.owners t) ∧
      w'.store.lockRecords =
        some (recRemove (read_lock_records worldLockedEscrow) 7) ∧
      w'.events = worldLockedEscrow.events ++ [Event.force_rls 7 recTok7]) :=
  ⟨rfl, rfl, rfl, rfl, rfl, by decide,
   C4_force_release_behavior.2.2 ctxPermissive worldLockedEscrow 7 0 1 recTok7
     rfl rfl rfl rfl rfl⟩

/-- Claim C5: with vintage validation enabled, an authorized lock_credit with
a requested unlock timestamp strictly below the policy-reported minimum
fails with VintageMismatch (aborting before any record is created); and if
the flag is set but no policy address was configured, it fails with
VintageCheckMissing. -/
theorem C5_vintage_enforcement :
    (∀ (ctx : CallCtx) (w : World) (tid t : Nat) (ca p : Address),
      w.store.carbonAssetContract = some ca →
      ctx.authorized ctx.invoker = true →
      should_validate_vintage w = true →
      get_vintage_check_contract w = some p →
      t < ctx.vintageUnlock p tid →
      lock_credit ctx w tid t = .error (.contractError .VintageMismatch)) ∧
    (∀ (ctx : CallCtx) (w : World) (tid t : Nat) (ca : Address),
      w.store.carbonAssetContract = some ca →
      ctx.authorized ctx.invoker = true →
      should_validate_vintage w = true →
      get_vintage_check_contract w = none →
      lock_credit ctx w tid t = .error (.contractError .VintageCheckMissing)) := by
  constructor
  · intro ctx w tid t ca p hca hauth hsv hp hlt
    simp only [lock_credit, get_carbon_asset_contract, hca]
    rw [lock_auth_ok hauth]
    simp [hsv, validate_vintage_unlock, hp, hlt]
  · intro ctx w tid t ca hca hauth hsv hp
    simp only [lock_credit, get_carbon_asset_contract, hca]
    rw [lock_auth_ok hauth]
    simp [hsv, validate_vintage_unlock, hp]

/-- Witness for C5: both vintage failure branches on concrete states (policy
minimum 100, requested unlock 5; and flag set with no policy address). -/
theorem C5_vintage_enforcement_witness :
    worldVintageInit.store.carbonAssetContract = some 1 ∧
    ctxPermissive.authorized ctxPermissive.invoker = true ∧
    should_validate_vintage worldVintageInit = true ∧
    get_vintage_check_contract worldVintageInit = some 2 ∧
    5 < ctxPermissive.vintageUnlock 2 7 ∧
    lock_credit ctxPermissive worldVintageInit 7 5 =
      .error (.contractError .VintageMismatch) ∧
    get_vintage_check_contract worldVintageMissing = none ∧
    lock_credit ctxPermissive worldVintageMissing 7 5 =
      .error (.contractError .VintageCheckMissing) :=
  ⟨rfl, rfl, rfl, rfl, by decide,
   C5_vintage_enforcement.1 ctxPermissive worldVintageInit 7 5 1 2 rfl rfl rfl
     rfl (by decide),
   rfl,
   C5_vintage_enforcement.2 ctxPermissive worldVintageMissing 7 5 1 rfl rfl rfl
     rfl⟩

/-- Claim C6: a token id is returned by get_tokens_locked_until exactly when
its current record's unlock timestamp is strictly greater than the given
timestamp (in particular, a record equal to the bound, or an unlocked token,
is excluded). -/
theorem C6_tokens_locked_until_spec :
    ∀ (w : World) (ts tok : Nat), NodupKeys w →
      (tok ∈ get_tokens_locked_until w ts ↔
        ∃ r, recGet (read_lock_records w) tok = some r ∧
          ts < r.unlock_timestamp) := by
  intro w ts tok hnd
  unfold NodupKeys at hnd
  unfold get_tokens_locked_until
  rw [mem_tokens_locked_aux]
  constructor
  · rintro ⟨r, hmem, hts⟩
    exact ⟨r, recGet_eq_some_of_mem hnd hmem, hts⟩
  · rintro ⟨r, hget, hts⟩
    exact ⟨r, mem_of_recGet_eq_some hget, hts⟩

/-- Witness for C6: the concrete single-lock state, bound 40 (token 7 with
unlock 50 is included). -/
theorem C6_tokens_locked_until_spec_witness :
    NodupKeys worldLockedEscrow ∧
    (7 ∈ get_tokens_locked_until worldLockedEscrow 40 ↔
      ∃ r, recGet (read_lock_records worldLockedEscrow) 7 = some r ∧
        40 < r.unlock_timestamp) :=
  ⟨by decide, C6_tokens_locked_until_spec worldLockedEscrow 40 7 (by decide)⟩

/-- Claim C7: on an eligible locked token (escrow custody, clock at or past
unlock), release_if_eligible succeeds, publishing exactly one release event,
and calling it again on the resulting state is a silent no-op returning the
same state with no error. -/
theorem C7_release_idempotent :
    ∀ (ctx1 ctx2 : CallCtx) (w : World) (tid : Nat) (r : LockRecord)
      (ca : Address),
      NodupKeys w →
      recGet (read_lock_records w) tid = some r →
      r.unlock_timestamp ≤ ctx1.timestamp →
      w.store.carbonAssetContract = some ca →
      w.owners tid = w.contractAddress →
      ∃ w1, release_if_eligible ctx1 w tid = .ok w1 ∧
        w1.events = w.events ++ [Event.released tid r] ∧
        release_if_eligible ctx2 w1 tid = .ok w1 := by
  intro ctx1 ctx2 w tid r ca hnd hr ht hca hown
  unfold NodupKeys at hnd
  refine ⟨_, release_if_eligible_eq_ok hr ht hca hown, rfl, ?_⟩
  apply release_if_eligible_of_none
  have hread : read_lock_records (publish (write_lock_records
      { w with owners := fun t => if t = tid then r.owner else w.owners t }
      (recRemove (read_lock_records w) tid)) (Event.released tid r)) =
      recRemove (read_lock_records w) tid := rfl
  rw [hread]
  exact recGet_recRemove_self hnd

/-- Witness for C7: double release of the concrete locked token at time 60. -/
theorem C7_release_idempotent_witness :
    NodupKeys worldLockedEscrow ∧
    recGet (read_lock_records worldLockedEscrow) 7 = some recTok7 ∧
    recTok7.unlock_timestamp ≤ ctxLate.timestamp ∧
    worldLockedEscrow.store.carbonAssetContract = some 1 ∧
    worldLockedEscrow.owners 7 = worldLockedEscrow.contractAddress ∧
    (∃ w1, release_if_eligible ctxLate worldLockedEscrow 7 = .ok w1 ∧
      w1.events = worldLockedEscrow.events ++ [Event.released 7 recTok7] ∧
      release_if_eligible ctxPermissive w1 7 = .ok w1) :=
  ⟨by decide, rfl, by decide, rfl, rfl,
   C7_release_idempotent ctxLate ctxPermissive worldLockedEscrow 7 recTok7 1
     (by decide) rfl (by decide) rfl rfl⟩

/-- Claim C8: the source loop of batch_release coincides with applying
release_if_eligible to each identifier of the sequence in order (sequential
composition in the error monad, no cross-item coordination). -/
theorem C8_batch_release_refines :
    ∀ (ctx : CallCtx) (token_ids : List Nat) (w : World),
      batch_release ctx w token_ids = batch_release_spec ctx token_ids w := by
  intro ctx token_ids
  induction token_ids with
  | nil => intro w; rfl
  | cons tid rest ih =>
    intro w
    simp only [batch_release, batch_release_spec, List.foldlM_cons]
    cases h : release_if_eligible ctx w tid with
    | error e => rfl
    | ok w1 => exact ih w1

/-- Claim C9: every error outcome of a public call is atomic: the observable
post-state of an erroring call is exactly the pre-state (the transaction
rolls back; no partial mutation of the lock registry or the configuration
survives). -/
theorem C9_errors_atomic :
    ∀ (ctx : CallCtx) (w : World) (c : Call) (e : CallError),
      (runCall ctx w c).2 = some e → (runCall ctx w c).1 = w := by
  intro ctx w c e h
  unfold runCall at h ⊢
  cases hx : exec ctx w c with
  | ok w1 =>
    rw [hx] at h
    simp at h
  | error e2 => rfl

/-- Witness for C9: a concrete erroring call (lock_credit before
initialization) whose observable post-state equals the pre-state. -/
theorem C9_errors_atomic_witness :
    (runCall ctxPermissive worldEmpty (Call.lock_c 7 50)).2 =
      some (.contractError .NotInitialized) ∧
    (runCall ctxPermissive worldEmpty (Call.lock_c 7 50)).1 = worldEmpty :=
  ⟨rfl, C9_errors_atomic ctxPermissive worldEmpty (Call.lock_c 7 50)
    (.contractError .NotInitialized) rfl⟩

/-- Claim C10: before initialization (all storage keys absent), lock_credit
and force_release fail with NotInitialized, while get_lock_status,
get_tokens_locked_until, release_if_eligible and batch_release succeed,
treating the registry as empty (absence, empty sequence, or no-op). -/
theorem C10_uninitialized_behavior :
    ∀ (ctx : CallCtx) (w : World), w.store = Storage.empty →
      (∀ tid ts, lock_credit ctx w tid ts =
        .error (.contractError .NotInitialized)) ∧
      (∀ tid, force_release ctx w tid =
        .error (.contractError .NotInitialized)) ∧
      (∀ tid, get_lock_status w tid = none) ∧
      (∀ ts, get_tokens_locked_until w ts = []) ∧
      (∀ tid, release_if_eligible ctx w tid = .ok w) ∧
      (∀ tids, batch_release ctx w tids = .ok w) := by
  intro ctx w hst
  have hca : w.store.carbonAssetContract = none := by rw [hst]; rfl
  have hadm : w.store.admin = none := by rw [hst]; rfl
  have hlr : w.store.lockRecords = none := by rw [hst]; rfl
  have hread : read_lock_records w = [] := by
    unfold read_lock_records
    rw [hlr]
    rfl
  refine ⟨?_, ?_, ?_, ?_, ?_, ?_⟩
  · intro tid ts
    simp [lock_credit, get_carbon_asset_contract, hca]
  · intro tid
    simp [force_release, get_admin, hadm]
  · intro tid
    simp [get_lock_status, hread, recGet]
  · intro ts
    simp [get_tokens_locked_until, hread, tokens_locked_aux]
  · intro tid
    exact release_if_eligible_of_none (by rw [hread]; rfl)
  · intro tids
    induction tids with
    | nil => rfl
    | cons tid rest ih =>
      simp only [batch_release]
      rw [release_if_eligible_of_none (by rw [hread]; rfl)]
      exact ih

/-- Witness for C10: concrete uninitialized instance. -/
theorem C10_uninitialized_behavior_witness :
    worldEmpty.store = Storage.empty ∧
    lock_credit ctxPermissive worldEmpty 7 50 =
      .error (.contractError .NotInitialized) ∧
    force_release ctxPermissive worldEmpty 7 =
      .error (.contractError .NotInitialized) ∧
    get_lock_status worldEmpty 7 = none ∧
    get_tokens_locked_until worldEmpty 0 = [] ∧
    release_if_eligible ctxPermissive worldEmpty 7 = .ok worldEmpty ∧
    batch_release ctxPermissive worldEmpty [7, 8] = .ok worldEmpty := by
  have h := C10_uninitialized_behavior ctxPermissive worldEmpty rfl
  exact ⟨rfl, h.1 7 50, h.2.1 7, h.2.2.1 7, h.2.2.2.1 0, h.2.2.2.2.1 7,
    h.2.2.2.2.2 [7, 8]⟩
